import Mathlib

/-!
Verification of the post-processing pipeline of the noon_scrapper_optimized
repository (src/working/post_processor.py), as a shallow embedding.

A pandas DataFrame is modelled as a `Frame`: a list of column names together
with rows, where each row is a list of cells aligned positionally with the
column list.  A cell is either null (pandas NaN / missing), a string, a
natural number, or a list of strings (the latter is used only for the
derived all_images column, which in the source holds a JSON-encoded array of
strings; we keep the decoded array, since json.loads is inverse to
json.dumps on arrays of strings).

Python str.strip is modelled charwise on ASCII whitespace (pyStrip);
str.split on the separator character is modelled charwise (splitGt for the
breadcrumb separator).  Python string comparison (used by sorted()) is
modelled by code-point lexicographic comparison (strLe).
-/

/-- One cell of a table: pandas NaN/missing, a string, a number, or a
decoded JSON array of strings (only produced for the all_images column). -/
inductive Cell where
  | null : Cell
  | str : String → Cell
  | nat : Nat → Cell
  | strList : List String → Cell
deriving DecidableEq

/-- pandas notna: every cell except null. -/
def notna : Cell → Bool
  | Cell.null => false
  | _ => true

/-- A DataFrame: column names plus rows of cells aligned with the columns. -/
structure Frame where
  cols : List String
  rows : List (List Cell)
deriving DecidableEq

/-- Value of the cell in column k of a row, null when the column is absent.
The row is read positionally against the column list, like a DataFrame row.
Python code always guards column access with a membership or notna check, so
conflating an absent column with a null cell is behaviour-preserving. -/
def getCellD : List String → List Cell → String → Cell
  | [], _, _ => Cell.null
  | _, [], _ => Cell.null
  | c :: cs, v :: vs, k => if c = k then v else getCellD cs vs k

/-- Python str conversion of a non-null scalar cell, as applied by the
source before strip().  The null branch mirrors str(float nan) = "nan"; it
is unreachable in the pipeline because every call site checks notna or
pd.isna first. -/
def cellToString : Cell → String
  | Cell.null => "nan"
  | Cell.str s => s
  | Cell.nat n => toString n
  | Cell.strList l => String.intercalate "," l

/-- A cell as an optional string: null becomes none, anything else its str
conversion.  Used to feed a raw breadcrumb cell to the breadcrumb parser,
whose pd.isna check corresponds to the none case. -/
def cellToOptString : Cell → Option String
  | Cell.null => none
  | c => some (cellToString c)

/-- An optional string as a cell (None becomes NaN in the emitted frame). -/
def optCell : Option String → Cell
  | none => Cell.null
  | some s => Cell.str s

/-- Characters removed by Python str.strip() with no argument (ASCII
whitespace; the pipeline only ever strips scraped URL and breadcrumb text). -/
def isPySpace (c : Char) : Bool :=
  c = ' ' || c = '\t' || c = '\n' || c = '\r' || c = '\x0b' || c = '\x0c'

/-- Python str.strip(): drop leading and trailing whitespace characters. -/
def trimChars (l : List Char) : List Char :=
  ((l.dropWhile isPySpace).reverse.dropWhile isPySpace).reverse

/-- Python str.strip() on a string. -/
def pyStrip (s : String) : String :=
  String.mk (trimChars s.toList)

/-- Helper for splitGt: accumulates the current piece in reverse. -/
def splitGtAux : List Char → List Char → List String
  | [], acc => [String.mk acc.reverse]
  | c :: cs, acc =>
    if c = '>' then String.mk acc.reverse :: splitGtAux cs []
    else splitGtAux cs (c :: acc)

/-- Python str.split(">"): split on every occurrence of the separator,
keeping empty pieces; the empty string yields one empty piece. -/
def splitGt (s : String) : List String :=
  splitGtAux s.toList []

/-- The four derived category slots produced by split_breadcrumbs. -/
structure Categories where
  category_1 : Option String
  category_2 : Option String
  category_3 : Option String
  category_4 : Option String
deriving DecidableEq

/-- The all-null category record. -/
def Categories.none4 : Categories := ⟨none, none, none, none⟩

/-- Slot i (1-based) of a category record; 0 and indices above 4 are none. -/
def Categories.slot (c : Categories) : Nat → Option String
  | 1 => c.category_1
  | 2 => c.category_2
  | 3 => c.category_3
  | 4 => c.category_4
  | _ => none

/-- split_breadcrumbs from post_processor.py: on a missing (pd.isna) or
blank-after-strip input return all-null; otherwise split on the separator,
strip every piece, drop the first piece (the Home segment) and assign the
next four pieces, in order, to category_1..category_4. -/
def split_breadcrumbs (b : Option String) : Categories :=
  match b with
  | none => Categories.none4
  | some s =>
    if pyStrip s = "" then Categories.none4
    else
      let parts := (((splitGt s).map pyStrip).drop 1).take 4
      ⟨parts[0]?, parts[1]?, parts[2]?, parts[3]?⟩

/-- The body of the combine_images loop of post_processor.py: a column
that is absent or null is skipped, the value is stripped, blank values are
skipped, and a value equal to one already taken is skipped.  The source
keeps a separate seen set, which always holds exactly the elements of the
accumulated list, so membership in the accumulator is the same test. -/
def combineStep (cols : List String) (row : List Cell) (acc : List String)
    (col : String) : List String :=
  match getCellD cols row col with
  | Cell.null => acc
  | v =>
    let url := pyStrip (cellToString v)
    if url = "" then acc
    else if acc.contains url then acc
    else acc ++ [url]

/-- combine_images from post_processor.py: fold the loop body over the
candidate image columns in order; returns None instead of the empty list. -/
def combine_images (cols : List String) (row : List Cell) (image_cols : List String) :
    Option (List String) :=
  let images := image_cols.foldl (combineStep cols row) []
  if images.isEmpty then none else some images

/-- The image_count derivation applied to all_images downstream: length of
the decoded array, 0 when the value is null. -/
def imageCountOf : Option (List String) → Nat
  | none => 0
  | some l => l.length

/-- COLUMNS_TO_KEEP from post_processor.py, in source order. -/
def COLUMNS_TO_KEEP : List String :=
  ["sku", "name", "brand", "url_slug", "product_url",
   "price", "sale_price", "discount_percentage",
   "rating_value", "rating_count", "is_buyable", "is_bestseller",
   "deal_tag_text", "flags", "estimated_delivery_date",
   "detail_product_title", "detail_brand", "detail_feature_bullets",
   "detail_breadcrumbs",
   "detail_category_code", "detail_all_specifications_json", "detail_all_images_json",
   "detail_brand_rating", "detail_is_collection_eligible",
   "detail_available_colors", "detail_color_variants_json", "detail_variant_sku", "detail_size",
   "detail_fbt_count", "detail_fbt_products_json",
   "detail_price", "detail_currency", "detail_sale_price", "detail_stock",
   "detail_is_buyable", "detail_is_bestseller",
   "detail_store_name", "detail_partner_code", "detail_seller_rating",
   "detail_seller_rating_count", "detail_seller_positive_rating",
   "detail_seller_as_described_rate",
   "detail_estimated_delivery", "detail_estimated_delivery_date",
   "detail_shipping_fee_message", "detail_is_marketplace",
   "detail_is_global", "detail_is_free_delivery",
   "detail_flags_json", "detail_bnpl_available", "detail_cashback_available"]

/-- IMAGE_COLUMNS from post_processor.py. -/
def IMAGE_COLUMNS : List String :=
  ["image_1", "image_2", "image_3", "image_4", "image_5",
   "image_6", "image_7", "image_8", "image_9", "image_10",
   "detail_image_1", "detail_image_2", "detail_image_3",
   "detail_image_4", "detail_image_5"]

/-- The five derived output fields appended by process_csv, in order. -/
def derivedCols : List String :=
  ["all_images", "image_count", "category_1", "category_2", "category_3", "category_4"]

/-- process_csv from post_processor.py: project a raw frame to the
allow-listed columns that are present, then append the all_images cell (the
JSON array is kept decoded), the image_count cell, and the four category
cells.  The breadcrumb column is consulted only when present in the file;
otherwise all four categories are null for every row. -/
def process_csv (df : Frame) (image_cols : List String) : Frame :=
  let cols := COLUMNS_TO_KEEP.filter (fun c => df.cols.contains c)
  let hasBc := df.cols.contains "detail_breadcrumbs"
  ⟨cols ++ derivedCols,
   df.rows.map (fun row =>
     let imgs := combine_images df.cols row image_cols
     let cats :=
       if hasBc then
         split_breadcrumbs (cellToOptString (getCellD df.cols row "detail_breadcrumbs"))
       else Categories.none4
     (cols.map (fun c => getCellD df.cols row c))
       ++ [(match imgs with
            | none => Cell.null
            | some l => Cell.strList l),
           Cell.nat (imageCountOf imgs),
           optCell cats.category_1, optCell cats.category_2,
           optCell cats.category_3, optCell cats.category_4])⟩

/-- Python string comparison (code-point lexicographic) on char lists. -/
def charListLe : List Char → List Char → Bool
  | [], _ => true
  | _ :: _, [] => false
  | a :: as, b :: bs =>
    if a.toNat < b.toNat then true
    else if b.toNat < a.toNat then false
    else charListLe as bs

/-- Python string less-or-equal, as used by sorted() on filenames.  The
source sorts Path objects, which for files of one flat directory compares
the filename strings code point by code point. -/
def strLe (a b : String) : Bool :=
  charListLe a.toList b.toList

/-- Python str.endswith. -/
def pyEndsWith (s t : String) : Bool :=
  t.toList.isSuffixOf s.toList

/-- Python str.startswith. -/
def pyStartsWith (s t : String) : Bool :=
  t.toList.isPrefixOf s.toList

/-- Discovery filter and sort of run_post_processor: keep names ending in
.csv, excluding the exact name audit_table.csv and names starting with
progress, then sort lexicographically, as sorted() does. -/
def selectCsvFiles (entries : List String) : List String :=
  List.insertionSort (fun a b => strLe a b = true)
    (entries.filter (fun f =>
      pyEndsWith f ".csv" && f != "audit_table.csv" && !pyStartsWith f "progress"))

/-- A directory is a list of (filename, content) entries; content none
means reading the file raises (unreadable or unparsable). -/
def fetchFile (entries : List (String × Option Frame)) (n : String) : Option Frame :=
  match entries.find? (fun p => p.1 == n) with
  | some p => p.2
  | none => none

/-- First-occurrence duplicate dropping over rows keyed by key, with the
seen set accumulated; models pandas drop_duplicates(keep=first).  pandas
duplicated()/drop_duplicates treats NaN subset values as equal to one
another, so the comparison is on the raw cell, null included. -/
def dropDupAux (key : List Cell → Cell) : List (List Cell) → List Cell → List (List Cell)
  | [], _ => []
  | r :: rs, seen =>
    if seen.contains (key r) then dropDupAux key rs seen
    else r :: dropDupAux key rs (key r :: seen)

/-- pandas DataFrame.drop_duplicates(subset=[k], keep="first") on rows. -/
def drop_duplicates (key : List Cell → Cell) (rows : List (List Cell)) : List (List Cell) :=
  dropDupAux key rows []

/-- The deduplication step of run_post_processor: when the combined table
has a detail_variant_sku column, deduplicate only the rows whose key is
non-null and re-append the null-key rows after them; else, when a sku
column exists, drop_duplicates the whole table on sku; else do nothing. -/
def dedupStep (c : Frame) : Frame :=
  if c.cols.contains "detail_variant_sku" then
    let key := fun r => getCellD c.cols r "detail_variant_sku"
    let withSku := drop_duplicates key (c.rows.filter (fun r => notna (key r)))
    let withoutSku := c.rows.filter (fun r => !notna (key r))
    ⟨c.cols, withSku ++ withoutSku⟩
  else if c.cols.contains "sku" then
    ⟨c.cols, drop_duplicates (fun r => getCellD c.cols r "sku") c.rows⟩
  else c

/-- The dedup key column the step will use on a combined table, if any. -/
def dedupKeyCol (c : Frame) : Option String :=
  if c.cols.contains "detail_variant_sku" then some "detail_variant_sku"
  else if c.cols.contains "sku" then some "sku"
  else none

/-- Column union in first-appearance order, as pd.concat(sort=False)
aligns frames with differing columns. -/
def unionCols (dfs : List Frame) : List String :=
  dfs.foldl (fun acc df => acc ++ df.cols.filter (fun c => !acc.contains c)) []

/-- Re-read a row of a source frame under a target column list, filling
columns the source lacks with null. -/
def alignRow (srcCols : List String) (row : List Cell) (cols : List String) : List Cell :=
  cols.map (fun c => getCellD srcCols row c)

/-- pd.concat(all_dfs, ignore_index=True): rows of every frame in list
order, aligned to the union of the columns. -/
def concatFrames (dfs : List Frame) : Frame :=
  let cols := unionCols dfs
  ⟨cols, dfs.foldl (fun acc df => acc ++ df.rows.map (fun r => alignRow df.cols r cols)) []⟩

/-- Empty-column pruning: drop every column whose cells are null in all
rows, keeping the remaining columns and the per-row cell values. -/
def pruneEmptyCols (f : Frame) : Frame :=
  let keep := f.cols.filter (fun c => f.rows.any (fun r => notna (getCellD f.cols r c)))
  ⟨keep, f.rows.map (fun r => keep.map (fun c => getCellD f.cols r c))⟩

/-- Outcome of run_post_processor: no input (the source returns None), an
uncaught exception, or a written combined frame (the returned DataFrame,
which is also what is serialized to the output file). -/
inductive RunResult where
  | noInput : RunResult
  | raised : RunResult
  | output : Frame → RunResult
deriving DecidableEq

/-- The result together with the per-file error warnings printed by the
processing loop (one entry per selected file whose transform raised,
identifying that file). -/
structure RunOutcome where
  result : RunResult
  warnings : List String
deriving DecidableEq

/-- One iteration of the per-file loop: an unreadable file is skipped and
its name logged; a readable one is transformed and appended. -/
def transformStep (fetch : String → Option Frame) (icols : List String)
    (acc : List Frame × List String) (n : String) : List Frame × List String :=
  match fetch n with
  | none => (acc.1, acc.2 ++ [n])
  | some df => (acc.1 ++ [process_csv df icols], acc.2)

/-- The per-file loop over all selected files, in order. -/
def transformAll (fetch : String → Option Frame) (icols : List String)
    (names : List String) : List Frame × List String :=
  names.foldl (transformStep fetch icols) ([], [])

/-- run_post_processor after discovery: read the header of the first
selected file outside any try block (so a failure there propagates), detect
the image columns from it, run the per-file loop, and unless nothing was
processed, concatenate, deduplicate, prune and emit. -/
def runFromListing (names : List String) (fetch : String → Option Frame) : RunOutcome :=
  match names with
  | [] => ⟨RunResult.noInput, []⟩
  | first :: _ =>
    match fetch first with
    | none => ⟨RunResult.raised, []⟩
    | some firstDf =>
      if (transformAll fetch (IMAGE_COLUMNS.filter (fun c => firstDf.cols.contains c))
            names).1.isEmpty then
        ⟨RunResult.noInput,
         (transformAll fetch (IMAGE_COLUMNS.filter (fun c => firstDf.cols.contains c))
           names).2⟩
      else
        ⟨RunResult.output (pruneEmptyCols (dedupStep (concatFrames
           (transformAll fetch (IMAGE_COLUMNS.filter (fun c => firstDf.cols.contains c))
             names).1))),
         (transformAll fetch (IMAGE_COLUMNS.filter (fun c => firstDf.cols.contains c))
           names).2⟩

/-- run_post_processor from post_processor.py over a modelled input
directory: none models a non-existent directory; otherwise the entry names
are filtered and sorted and the rest of the pipeline runs.  File contents
are looked up by name, so the outcome is a function of the directory as a
set of named files. -/
def run_post_processor (dir : Option (List (String × Option Frame))) : RunOutcome :=
  match dir with
  | none => ⟨RunResult.noInput, []⟩
  | some entries => runFromListing (selectCsvFiles (entries.map Prod.fst)) (fetchFile entries)

/-! Helper lemmas about first-occurrence duplicate dropping. -/

theorem mem_of_mem_dropDupAux {key : List Cell → Cell} :
    ∀ {rows : List (List Cell)} {seen : List Cell} {r : List Cell},
      r ∈ dropDupAux key rows seen → r ∈ rows := by
  intro rows
  induction rows with
  | nil => intro seen r h; simp [dropDupAux] at h
  | cons a rs ih =>
    intro seen r h
    by_cases hc : seen.contains (key a) = true
    · rw [dropDupAux, if_pos hc] at h
      exact List.mem_cons_of_mem a (ih h)
    · rw [dropDupAux, if_neg hc] at h
      rcases List.mem_cons.mp h with h' | h'
      · exact h' ▸ List.mem_cons_self a rs
      · exact List.mem_cons_of_mem a (ih h')

theorem countP_dropDupAux (key : List Cell → Cell) (v : Cell)
    (rows : List (List Cell)) :
    ∀ seen : List Cell,
      List.countP (fun r => key r == v) (dropDupAux key rows seen) ≤
        (if seen.contains v then 0 else 1) := by
  induction rows with
  | nil => intro seen; simp [dropDupAux]
  | cons a rs ih =>
    intro seen
    by_cases hc : seen.contains (key a) = true
    · rw [dropDupAux, if_pos hc]
      exact ih seen
    · rw [dropDupAux, if_neg hc, List.countP_cons]
      by_cases hv : (key a == v) = true
      · have hveq : key a = v := beq_iff_eq.mp hv
        subst hveq
        have h1 := ih (key a :: seen)
        have hcon : (key a :: seen).contains (key a) = true := by
          simp [List.contains_cons]
        rw [hcon, if_pos rfl] at h1
        have hnv : seen.contains (key a) = false := Bool.eq_false_iff.mpr hc
        rw [hnv, hv, if_pos rfl, if_neg (by simp)]
        omega
      · have h1 := ih (key a :: seen)
        have hvne : v ≠ key a := by
          intro h'
          exact hv (beq_iff_eq.mpr h'.symm)
        have hcon : (key a :: seen).contains v = seen.contains v := by
          simp [List.contains_cons, hvne]
        rw [hcon] at h1
        have hv' : (key a == v) = false := Bool.eq_false_iff.mpr hv
        rw [hv', if_neg (by simp)]
        omega

theorem find?_dropDupAux (key : List Cell → Cell) (v : Cell)
    (rows : List (List Cell)) :
    ∀ seen : List Cell, seen.contains v = false →
      List.find? (fun r => key r == v) (dropDupAux key rows seen) =
        List.find? (fun r => key r == v) rows := by
  induction rows with
  | nil => intro seen _; simp [dropDupAux]
  | cons a rs ih =>
    intro seen hs
    by_cases hc : seen.contains (key a) = true
    · rw [dropDupAux, if_pos hc]
      have hkv : (key a == v) = false := by
        apply beq_eq_false_iff_ne.mpr
        intro h'
        rw [h'] at hc
        rw [hs] at hc
        exact Bool.noConfusion hc
      rw [List.find?_cons_of_neg _ (by simp [hkv]), ih seen hs]
    · rw [dropDupAux, if_neg hc]
      by_cases hv : (key a == v) = true
      · have e1 : List.find? (fun r => key r == v)
            (a :: dropDupAux key rs (key a :: seen)) = some a :=
          List.find?_cons_of_pos _ hv
        have e2 : List.find? (fun r => key r == v) (a :: rs) = some a :=
          List.find?_cons_of_pos _ hv
        rw [e1, e2]
      · have hv' : (key a == v) = false := Bool.eq_false_iff.mpr hv
        have hvne : v ≠ key a := by
          intro h'
          exact hv (beq_iff_eq.mpr h'.symm)
        have hsmem : v ∉ seen := by simpa using hs
        have hcon : (key a :: seen).contains v = false := by
          simp [List.contains_cons, hvne, hsmem]
        have e1 : List.find? (fun r => key r == v)
            (a :: dropDupAux key rs (key a :: seen)) =
            List.find? (fun r => key r == v) (dropDupAux key rs (key a :: seen)) :=
          List.find?_cons_of_neg _ (by simp [hv'])
        have e2 : List.find? (fun r => key r == v) (a :: rs) =
            List.find? (fun r => key r == v) rs :=
          List.find?_cons_of_neg _ (by simp [hv'])
        rw [e1, e2, ih _ hcon]

theorem find?_filter_of_imp {α : Type} (q p : α → Bool) (l : List α)
    (h : ∀ x, q x = true → p x = true) :
    List.find? q (l.filter p) = List.find? q l := by
  induction l with
  | nil => simp
  | cons a l ih =>
    cases hq : q a with
    | true =>
      rw [List.filter_cons_of_pos (h a hq), List.find?_cons_of_pos _ hq,
        List.find?_cons_of_pos _ hq]
    | false =>
      cases hp : p a with
      | true =>
        rw [List.filter_cons_of_pos hp, List.find?_cons_of_neg _ (by simp [hq]),
          List.find?_cons_of_neg _ (by simp [hq]), ih]
      | false =>
        rw [List.filter_cons_of_neg (by simp [hp]),
          List.find?_cons_of_neg _ (by simp [hq]), ih]

theorem find?_append_of_none {α : Type} (p : α → Bool) (l₁ l₂ : List α)
    (h : List.find? p l₂ = none) :
    List.find? p (l₁ ++ l₂) = List.find? p l₁ := by
  induction l₁ with
  | nil => simpa using h
  | cons a l ih =>
    cases hp : p a with
    | true =>
      rw [List.cons_append, List.find?_cons_of_pos _ hp, List.find?_cons_of_pos _ hp]
    | false =>
      rw [List.cons_append, List.find?_cons_of_neg _ (by simp [hp]),
        List.find?_cons_of_neg _ (by simp [hp]), ih]

theorem notna_eq_false_iff (c : Cell) : notna c = false ↔ c = Cell.null := by
  cases c <;> simp [notna]

theorem notna_beq_null (c : Cell) : (!notna c) = (c == Cell.null) := by
  cases c <;> simp [notna]

theorem notna_eq_true_iff (c : Cell) : notna c = true ↔ c ≠ Cell.null := by
  cases c <;> simp [notna]

theorem dedupStep_cols (c : Frame) : (dedupStep c).cols = c.cols := by
  unfold dedupStep
  split
  · rfl
  · split
    · rfl
    · rfl

theorem dedupStep_rows_detail (c : Frame)
    (h : c.cols.contains "detail_variant_sku" = true) :
    (dedupStep c).rows =
      drop_duplicates (fun r => getCellD c.cols r "detail_variant_sku")
          (c.rows.filter (fun r => notna (getCellD c.cols r "detail_variant_sku"))) ++
        c.rows.filter (fun r => !notna (getCellD c.cols r "detail_variant_sku")) := by
  unfold dedupStep
  rw [if_pos h]

theorem dedupStep_rows_sku (c : Frame)
    (h1 : ¬c.cols.contains "detail_variant_sku" = true)
    (h2 : c.cols.contains "sku" = true) :
    (dedupStep c).rows =
      drop_duplicates (fun r => getCellD c.cols r "sku") c.rows := by
  unfold dedupStep
  rw [if_neg h1, if_pos h2]

/-- Claim C2: in the deduplicated combined table, every non-null dedup key
value (detail_variant_sku when that column exists, else sku) occurs in at
most one row, and the surviving row for a key value is the first row, in
the combined row order, bearing that key value. -/
theorem C2_thm (c : Frame) (k : String) (v : Cell)
    (hk : dedupKeyCol c = some k) (hv : v ≠ Cell.null) :
    List.countP (fun r => getCellD c.cols r k == v) (dedupStep c).rows ≤ 1 ∧
      List.find? (fun r => getCellD c.cols r k == v) (dedupStep c).rows =
        List.find? (fun r => getCellD c.cols r k == v) c.rows := by
  by_cases h1 : c.cols.contains "detail_variant_sku" = true
  · have hk2 : k = "detail_variant_sku" := by
      unfold dedupKeyCol at hk
      rw [if_pos h1] at hk
      exact (Option.some.inj hk).symm
    subst hk2
    rw [dedupStep_rows_detail c h1]
    have hz : List.countP (fun r => getCellD c.cols r "detail_variant_sku" == v)
        (c.rows.filter (fun r => !notna (getCellD c.cols r "detail_variant_sku"))) = 0 := by
      apply List.countP_eq_zero.mpr
      intro r hr
      have hnull : getCellD c.cols r "detail_variant_sku" = Cell.null := by
        have hmem := (List.mem_filter.mp hr).2
        have hnotna : notna (getCellD c.cols r "detail_variant_sku") = false := by
          simpa using hmem
        exact (notna_eq_false_iff _).mp hnotna
      rw [hnull]
      intro hb
      exact hv (beq_iff_eq.mp hb).symm
    have hznone : List.find? (fun r => getCellD c.cols r "detail_variant_sku" == v)
        (c.rows.filter (fun r => !notna (getCellD c.cols r "detail_variant_sku"))) = none := by
      apply List.find?_eq_none.mpr
      intro r hr
      have hnull : getCellD c.cols r "detail_variant_sku" = Cell.null := by
        have hmem := (List.mem_filter.mp hr).2
        have hnotna : notna (getCellD c.cols r "detail_variant_sku") = false := by
          simpa using hmem
        exact (notna_eq_false_iff _).mp hnotna
      rw [hnull]
      intro hb
      exact hv (beq_iff_eq.mp hb).symm
    constructor
    · rw [List.countP_append, hz]
      have h2 := countP_dropDupAux (fun r => getCellD c.cols r "detail_variant_sku") v
        (c.rows.filter (fun r => notna (getCellD c.cols r "detail_variant_sku"))) []
      simpa [drop_duplicates] using h2
    · rw [find?_append_of_none _ _ _ hznone]
      have h3 := find?_dropDupAux (fun r => getCellD c.cols r "detail_variant_sku") v
        (c.rows.filter (fun r => notna (getCellD c.cols r "detail_variant_sku"))) []
        (by simp)
      rw [drop_duplicates, h3]
      apply find?_filter_of_imp
      intro r hq
      have heq : getCellD c.cols r "detail_variant_sku" = v := beq_iff_eq.mp hq
      rw [heq]
      exact (notna_eq_true_iff v).mpr hv
  · have h2 : c.cols.contains "sku" = true := by
      unfold dedupKeyCol at hk
      rw [if_neg h1] at hk
      by_cases h2 : c.cols.contains "sku" = true
      · exact h2
      · rw [if_neg h2] at hk
        exact Option.noConfusion hk
    have hk2 : k = "sku" := by
      unfold dedupKeyCol at hk
      rw [if_neg h1, if_pos h2] at hk
      exact (Option.some.inj hk).symm
    subst hk2
    rw [dedupStep_rows_sku c h1 h2]
    constructor
    · have h3 := countP_dropDupAux (fun r => getCellD c.cols r "sku") v c.rows []
      simpa [drop_duplicates] using h3
    · exact find?_dropDupAux (fun r => getCellD c.cols r "sku") v c.rows [] (by simp)

/-- Witness for C2 on a concrete two-row table sharing a sku value. -/
theorem C2_witness :
    List.countP (fun r => getCellD (Frame.mk ["sku"] [[Cell.str "x"], [Cell.str "x"]]).cols r "sku" == Cell.str "x")
        (dedupStep (Frame.mk ["sku"] [[Cell.str "x"], [Cell.str "x"]])).rows ≤ 1 ∧
      List.find? (fun r => getCellD (Frame.mk ["sku"] [[Cell.str "x"], [Cell.str "x"]]).cols r "sku" == Cell.str "x")
          (dedupStep (Frame.mk ["sku"] [[Cell.str "x"], [Cell.str "x"]])).rows =
        List.find? (fun r => getCellD (Frame.mk ["sku"] [[Cell.str "x"], [Cell.str "x"]]).cols r "sku" == Cell.str "x")
          (Frame.mk ["sku"] [[Cell.str "x"], [Cell.str "x"]]).rows :=
  C2_thm (Frame.mk ["sku"] [[Cell.str "x"], [Cell.str "x"]]) "sku" (Cell.str "x")
    (by decide) (by decide)

/-- Claim C1 counterexample: under the plain-sku fallback path, rows
lacking the dedup key are NOT always retained.  A combined table with only
a sku column and two rows whose sku is null enters dedup with two key-less
rows and leaves it with one: pandas drop_duplicates treats missing subset
values as duplicates of one another, so the second null-sku row is dropped. -/
theorem C1_counterexample :
    List.countP (fun r => !notna (getCellD ["sku"] r "sku"))
        (Frame.mk ["sku"] [[Cell.null], [Cell.null]]).rows = 2 ∧
      (dedupStep (Frame.mk ["sku"] [[Cell.null], [Cell.null]])).rows = [[Cell.null]] := by
  decide

/-- Claim C1 as amended: under the detail_variant_sku path, rows lacking
the key are never deduplicated (they survive exactly, in order) and are
re-appended after the deduplicated keyed partition; under the sku fallback
path the whole table is deduplicated treating the missing key as one shared
value, so of the rows lacking the key only the first survives (and it
survives in first-occurrence position). -/
theorem C1_amended_thm (c : Frame) :
    (c.cols.contains "detail_variant_sku" = true →
      List.filter (fun r => !notna (getCellD c.cols r "detail_variant_sku")) (dedupStep c).rows =
          List.filter (fun r => !notna (getCellD c.cols r "detail_variant_sku")) c.rows ∧
        (∃ X, (dedupStep c).rows =
            X ++ List.filter (fun r => !notna (getCellD c.cols r "detail_variant_sku")) c.rows ∧
          ∀ r ∈ X, notna (getCellD c.cols r "detail_variant_sku") = true)) ∧
      (¬c.cols.contains "detail_variant_sku" = true → c.cols.contains "sku" = true →
        List.countP (fun r => !notna (getCellD c.cols r "sku")) (dedupStep c).rows =
            min 1 (List.countP (fun r => !notna (getCellD c.cols r "sku")) c.rows) ∧
          List.find? (fun r => !notna (getCellD c.cols r "sku")) (dedupStep c).rows =
            List.find? (fun r => !notna (getCellD c.cols r "sku")) c.rows) := by
  constructor
  · intro h1
    rw [dedupStep_rows_detail c h1]
    have hnil : List.filter (fun r => !notna (getCellD c.cols r "detail_variant_sku"))
        (drop_duplicates (fun r => getCellD c.cols r "detail_variant_sku")
          (c.rows.filter (fun r => notna (getCellD c.cols r "detail_variant_sku")))) = [] := by
      rw [List.filter_eq_nil_iff]
      intro r hr
      have hr2 : r ∈ c.rows.filter (fun r => notna (getCellD c.cols r "detail_variant_sku")) :=
        mem_of_mem_dropDupAux hr
      have hna := (List.mem_filter.mp hr2).2
      simp [hna]
    have hself : List.filter (fun r => !notna (getCellD c.cols r "detail_variant_sku"))
        (c.rows.filter (fun r => !notna (getCellD c.cols r "detail_variant_sku"))) =
        c.rows.filter (fun r => !notna (getCellD c.cols r "detail_variant_sku")) := by
      rw [List.filter_eq_self]
      intro r hr
      exact (List.mem_filter.mp hr).2
    constructor
    · rw [List.filter_append, hnil, hself, List.nil_append]
    · refine ⟨drop_duplicates (fun r => getCellD c.cols r "detail_variant_sku")
        (c.rows.filter (fun r => notna (getCellD c.cols r "detail_variant_sku"))), rfl, ?_⟩
      intro r hr
      have hr2 : r ∈ c.rows.filter (fun r => notna (getCellD c.cols r "detail_variant_sku")) :=
        mem_of_mem_dropDupAux hr
      exact (List.mem_filter.mp hr2).2
  · intro h1 h2
    rw [dedupStep_rows_sku c h1 h2]
    have hfun : (fun r : List Cell => !notna (getCellD c.cols r "sku")) =
        (fun r : List Cell => getCellD c.cols r "sku" == Cell.null) :=
      funext (fun r => notna_beq_null _)
    rw [hfun]
    have hfind := find?_dropDupAux (fun r => getCellD c.cols r "sku") Cell.null c.rows []
      (by simp)
    have hcount := countP_dropDupAux (fun r => getCellD c.cols r "sku") Cell.null c.rows []
    simp only [List.contains_nil, if_neg (by simp : ¬(false = true))] at hcount
    constructor
    · unfold drop_duplicates
      by_cases hc : List.countP (fun r => getCellD c.cols r "sku" == Cell.null) c.rows = 0
      · have hout : List.countP (fun r => getCellD c.cols r "sku" == Cell.null)
            (dropDupAux (fun r => getCellD c.cols r "sku") c.rows []) = 0 := by
          rw [List.countP_eq_zero]
          intro r hr
          have hmem : r ∈ c.rows := mem_of_mem_dropDupAux hr
          exact List.countP_eq_zero.mp hc r hmem
        rw [hout, hc]
        omega
      · have hpos : 0 < List.countP (fun r => getCellD c.cols r "sku" == Cell.null) c.rows :=
          Nat.pos_of_ne_zero hc
        have hex : ∃ r ∈ c.rows, (getCellD c.cols r "sku" == Cell.null) = true :=
          List.countP_pos_iff.mp hpos
        have hsome : (List.find? (fun r => getCellD c.cols r "sku" == Cell.null) c.rows).isSome := by
          rw [List.find?_isSome]
          exact hex
        rcases Option.isSome_iff_exists.mp hsome with ⟨b, hb⟩
        have hbout : List.find? (fun r => getCellD c.cols r "sku" == Cell.null)
            (dropDupAux (fun r => getCellD c.cols r "sku") c.rows []) = some b := by
          rw [hfind, hb]
        have hbmem := List.mem_of_find?_eq_some hbout
        have hbp := List.find?_some hbout
        have houtpos : 0 < List.countP (fun r => getCellD c.cols r "sku" == Cell.null)
            (dropDupAux (fun r => getCellD c.cols r "sku") c.rows []) :=
          List.countP_pos_iff.mpr ⟨b, hbmem, hbp⟩
        omega
    · rw [drop_duplicates, hfind]

/-- Witness for the amended C1 on a concrete table with a
detail_variant_sku column and one null-key row. -/
theorem C1_amended_witness :
    List.filter (fun r => !notna (getCellD ["detail_variant_sku"] r "detail_variant_sku"))
        (dedupStep (Frame.mk ["detail_variant_sku"] [[Cell.str "a"], [Cell.null]])).rows =
        List.filter (fun r => !notna (getCellD ["detail_variant_sku"] r "detail_variant_sku"))
          (Frame.mk ["detail_variant_sku"] [[Cell.str "a"], [Cell.null]]).rows ∧
      (∃ X, (dedupStep (Frame.mk ["detail_variant_sku"] [[Cell.str "a"], [Cell.null]])).rows =
          X ++ List.filter (fun r => !notna (getCellD ["detail_variant_sku"] r "detail_variant_sku"))
            (Frame.mk ["detail_variant_sku"] [[Cell.str "a"], [Cell.null]]).rows ∧
        ∀ r ∈ X, notna (getCellD ["detail_variant_sku"] r "detail_variant_sku") = true) :=
  (C1_amended_thm (Frame.mk ["detail_variant_sku"] [[Cell.str "a"], [Cell.null]])).1 (by decide)

/-! Breadcrumb parser lemmas. -/

theorem mk_toList (s : String) : String.mk s.toList = s := rfl

theorem splitGtAux_no_sep : ∀ (l acc : List Char), '>' ∉ l →
    splitGtAux l acc = [String.mk (acc.reverse ++ l)] := by
  intro l
  induction l with
  | nil => intro acc _; simp [splitGtAux]
  | cons c cs ih =>
    intro acc h
    have hc : ¬(c = '>') := by
      intro h'
      exact h (h' ▸ List.mem_cons_self c cs)
    rw [splitGtAux, if_neg hc, ih (c :: acc) (fun hm => h (List.mem_cons_of_mem c hm))]
    simp [List.reverse_cons, List.append_assoc]

theorem splitGt_no_sep (s : String) (h : '>' ∉ s.toList) : splitGt s = [s] := by
  unfold splitGt
  rw [splitGtAux_no_sep _ _ h]
  simp [mk_toList]

theorem split_breadcrumbs_single (s : String) (h : '>' ∉ s.toList) :
    split_breadcrumbs (some s) = Categories.none4 := by
  by_cases hb : pyStrip s = ""
  · simp [split_breadcrumbs, hb]
  · simp [split_breadcrumbs, hb, splitGt_no_sep s h, Categories.none4]

theorem slot_none4 : ∀ i, Categories.slot Categories.none4 i = none
  | 0 => rfl
  | 1 => rfl
  | 2 => rfl
  | 3 => rfl
  | 4 => rfl
  | _ + 5 => rfl

theorem parts_getElem?_none (s : String) (j : Nat)
    (h : (splitGt s).length ≤ j + 1) :
    ((((splitGt s).map pyStrip).drop 1).take 4)[j]? = none := by
  apply List.getElem?_eq_none
  simp only [List.length_take, List.length_drop, List.length_map]
  omega

/-- Claim C3: the breadcrumb parser splits on the separator, trims, drops
the first segment unconditionally and keeps at most the next four: checked
on the five-segment example, a seven-segment example whose last segments
are dropped, and on missing, blank, and general single-segment inputs,
which all give four null categories. -/
theorem C3_thm :
    split_breadcrumbs (some "Home > Baby Products > Nursing & Feeding > Breastfeeding > Pumps") =
        ⟨some "Baby Products", some "Nursing & Feeding", some "Breastfeeding", some "Pumps"⟩ ∧
      split_breadcrumbs (some "Home > A > B > C > D > E") =
        ⟨some "A", some "B", some "C", some "D"⟩ ∧
      split_breadcrumbs none = Categories.none4 ∧
      split_breadcrumbs (some "") = Categories.none4 ∧
      split_breadcrumbs (some "   ") = Categories.none4 ∧
      (∀ s : String, pyStrip s = "" → split_breadcrumbs (some s) = Categories.none4) ∧
      (∀ s : String, '>' ∉ s.toList → split_breadcrumbs (some s) = Categories.none4) := by
  refine ⟨by decide, by decide, rfl, by decide, by decide, ?_, split_breadcrumbs_single⟩
  intro s h
  simp [split_breadcrumbs, h]

/-- Witness for C3 applying the general single-segment case. -/
theorem C3_witness : split_breadcrumbs (some "Solo") = Categories.none4 :=
  C3_thm.2.2.2.2.2.2 "Solo" (by decide)

/-- Claim C4 counterexample: for the breadcrumb "a>>b" the blank middle
segment is assigned verbatim, so category_1 is the EMPTY string: it is
neither null nor a non-empty trimmed segment, contradicting the claim that
no slot is ever the empty string. -/
theorem C4_counterexample :
    (split_breadcrumbs (some "a>>b")).category_1 = some "" := by
  decide

/-- Claim C4 as amended: every slot is either null or the trim of some
segment of the input (possibly the empty string, when consecutive
separators make a segment blank); a slot is null whenever the input is
missing or blank, or the input has fewer remaining segments than the slot
requires. -/
theorem C4_amended_thm (b : Option String) :
    (b = none → split_breadcrumbs b = Categories.none4) ∧
      (∀ s, b = some s → pyStrip s = "" → split_breadcrumbs b = Categories.none4) ∧
      (∀ i s', Categories.slot (split_breadcrumbs b) i = some s' →
        ∃ t, b = some t ∧ ∃ seg ∈ splitGt t, pyStrip seg = s') ∧
      (∀ s i, b = some s → (splitGt s).length ≤ i →
        Categories.slot (split_breadcrumbs b) i = none) := by
  refine ⟨?_, ?_, ?_, ?_⟩
  · intro h
    subst h
    rfl
  · intro s hb hblank
    subst hb
    simp [split_breadcrumbs, hblank]
  · intro i s' hslot
    cases b with
    | none =>
      rw [show split_breadcrumbs none = Categories.none4 from rfl, slot_none4] at hslot
      exact Option.noConfusion hslot
    | some t =>
      refine ⟨t, rfl, ?_⟩
      by_cases hb : pyStrip t = ""
      · rw [show split_breadcrumbs (some t) = Categories.none4 by
          simp [split_breadcrumbs, hb], slot_none4] at hslot
        exact Option.noConfusion hslot
      · have hform : split_breadcrumbs (some t) =
            ⟨((((splitGt t).map pyStrip).drop 1).take 4)[0]?,
             ((((splitGt t).map pyStrip).drop 1).take 4)[1]?,
             ((((splitGt t).map pyStrip).drop 1).take 4)[2]?,
             ((((splitGt t).map pyStrip).drop 1).take 4)[3]?⟩ := by
          simp [split_breadcrumbs, hb]
        rw [hform] at hslot
        have hmem : s' ∈ (((splitGt t).map pyStrip).drop 1).take 4 := by
          rcases i with _ | _ | _ | _ | _ | i
          · exact Option.noConfusion hslot
          · exact List.getElem?_mem hslot
          · exact List.getElem?_mem hslot
          · exact List.getElem?_mem hslot
          · exact List.getElem?_mem hslot
          · exact Option.noConfusion hslot
        have hmem2 : s' ∈ (splitGt t).map pyStrip :=
          List.mem_of_mem_drop (List.mem_of_mem_take hmem)
        rcases List.mem_map.mp hmem2 with ⟨seg, hseg, heq⟩
        exact ⟨seg, hseg, heq⟩
  · intro s i hb hlen
    subst hb
    by_cases hbl : pyStrip s = ""
    · rw [show split_breadcrumbs (some s) = Categories.none4 by
        simp [split_breadcrumbs, hbl], slot_none4]
    · have hform : split_breadcrumbs (some s) =
          ⟨((((splitGt s).map pyStrip).drop 1).take 4)[0]?,
           ((((splitGt s).map pyStrip).drop 1).take 4)[1]?,
           ((((splitGt s).map pyStrip).drop 1).take 4)[2]?,
           ((((splitGt s).map pyStrip).drop 1).take 4)[3]?⟩ := by
        simp [split_breadcrumbs, hbl]
      rw [hform]
      rcases i with _ | _ | _ | _ | _ | i
      · rfl
      · exact parts_getElem?_none s 0 (by omega)
      · exact parts_getElem?_none s 1 (by omega)
      · exact parts_getElem?_none s 2 (by omega)
      · exact parts_getElem?_none s 3 (by omega)
      · rfl

/-- Witness for the amended C4: a two-segment breadcrumb has no fifth
remaining segment, so slot 5 is null. -/
theorem C4_amended_witness :
    Categories.slot (split_breadcrumbs (some "Home > A")) 5 = none :=
  (C4_amended_thm (some "Home > A")).2.2.2 "Home > A" 5 rfl (by decide)

/-! Image consolidation: declarative characterization. -/

/-- The candidate value one image column contributes to a row: none when
the column is absent, null, or strips to blank; else the stripped text. -/
def extractUrl (cols : List String) (row : List Cell) (col : String) : Option String :=
  match getCellD cols row col with
  | Cell.null => none
  | v =>
    let url := pyStrip (cellToString v)
    if url = "" then none else some url

/-- All candidate URL values of a row, in candidate-field order. -/
def candidateUrls (cols : List String) (row : List Cell) (image_cols : List String) :
    List String :=
  image_cols.filterMap (extractUrl cols row)

/-- First-occurrence deduplication keeping relative order (the wording of
the specification: first occurrence wins, later duplicates dropped,
original relative order preserved). -/
def dedupKeepFirst : List String → List String
  | [] => []
  | x :: xs => x :: dedupKeepFirst (xs.filter (fun y => y != x))
termination_by l => l.length
decreasing_by
  simp only [List.length_cons]
  exact Nat.lt_succ_of_le (List.length_filter_le _ _)

theorem combineStep_eq_extract (cols : List String) (row : List Cell)
    (acc : List String) (col : String) :
    combineStep cols row acc col =
      (match extractUrl cols row col with
       | none => acc
       | some u => if acc.contains u then acc else acc ++ [u]) := by
  unfold combineStep extractUrl
  cases getCellD cols row col with
  | null => rfl
  | str s =>
    by_cases hu : pyStrip (cellToString (Cell.str s)) = "" <;> simp [hu]
  | nat n =>
    by_cases hu : pyStrip (cellToString (Cell.nat n)) = "" <;> simp [hu]
  | strList l =>
    by_cases hu : pyStrip (cellToString (Cell.strList l)) = "" <;> simp [hu]

theorem foldl_combineStep_eq (cols : List String) (row : List Cell) :
    ∀ (icols : List String) (acc : List String),
      icols.foldl (combineStep cols row) acc =
        (candidateUrls cols row icols).foldl
          (fun acc u => if acc.contains u then acc else acc ++ [u]) acc := by
  intro icols
  induction icols with
  | nil => intro acc; rfl
  | cons col cs ih =>
    intro acc
    rw [List.foldl_cons]
    unfold candidateUrls
    rw [List.filterMap_cons]
    cases h : extractUrl cols row col with
    | none =>
      have hs : combineStep cols row acc col = acc := by
        rw [combineStep_eq_extract, h]
      rw [hs]
      exact ih acc
    | some u =>
      have hs : combineStep cols row acc col =
          (if acc.contains u then acc else acc ++ [u]) := by
        rw [combineStep_eq_extract, h]
      rw [hs, List.foldl_cons]
      exact ih _

theorem foldl_insert_dedup : ∀ (us acc : List String),
    us.foldl (fun acc u => if acc.contains u then acc else acc ++ [u]) acc =
      acc ++ dedupKeepFirst (us.filter (fun y => !acc.contains y)) := by
  intro us
  induction us with
  | nil => intro acc; simp [dedupKeepFirst]
  | cons u us ih =>
    intro acc
    rw [List.foldl_cons]
    by_cases hc : acc.contains u = true
    · have hmem : u ∈ acc := by simpa using hc
      rw [if_pos hc, List.filter_cons_of_neg (by simp [hmem]), ih]
    · have hc' : acc.contains u = false := Bool.eq_false_iff.mpr hc
      have hnmem : u ∉ acc := by simpa using hc'
      rw [if_neg hc, List.filter_cons_of_pos (by simp [hnmem]), ih (acc ++ [u])]
      have hfilters : us.filter (fun y => !(acc ++ [u]).contains y) =
          (us.filter (fun y => !acc.contains y)).filter (fun y => y != u) := by
        rw [List.filter_filter]
        apply List.filter_congr
        intro y _
        by_cases h1 : y = u
        · subst h1; simp
        · by_cases h2 : y ∈ acc <;> simp [h1, h2]
      rw [dedupKeepFirst, ← hfilters, List.append_assoc]
      rfl

theorem combine_images_eq_dedup (cols : List String) (row : List Cell)
    (icols : List String) :
    combine_images cols row icols =
      (if dedupKeepFirst (candidateUrls cols row icols) = [] then none
       else some (dedupKeepFirst (candidateUrls cols row icols))) := by
  unfold combine_images
  rw [foldl_combineStep_eq, foldl_insert_dedup]
  have hfilter : (candidateUrls cols row icols).filter
      (fun y => !([] : List String).contains y) = candidateUrls cols row icols := by
    apply List.filter_eq_self.mpr
    intro a _
    simp
  rw [hfilter, List.nil_append]
  by_cases h : dedupKeepFirst (candidateUrls cols row icols) = [] <;>
    simp [h]

/-- Claim C5: combine_images returns exactly the first-occurrence
deduplication of the stripped non-blank candidate values in candidate-field
order (null rather than an empty array when none survive); image_count is
the length of the decoded array and 0 on null; checked also on the
concrete example with a duplicate URL and on an all-blank row. -/
theorem C5_thm :
    (∀ (cols : List String) (row : List Cell) (icols : List String),
      combine_images cols row icols =
        (if dedupKeepFirst (candidateUrls cols row icols) = [] then none
         else some (dedupKeepFirst (candidateUrls cols row icols)))) ∧
      (∀ (cols : List String) (row : List Cell) (icols : List String),
        combine_images cols row icols ≠ some []) ∧
      imageCountOf none = 0 ∧
      (∀ l : List String, imageCountOf (some l) = l.length) ∧
      combine_images ["image_1", "image_2", "detail_image_1"]
          [Cell.str "http://a", Cell.str "http://a", Cell.str "http://b"]
          ["image_1", "image_2", "detail_image_1"] = some ["http://a", "http://b"] ∧
      imageCountOf (combine_images ["image_1", "image_2", "detail_image_1"]
          [Cell.str "http://a", Cell.str "http://a", Cell.str "http://b"]
          ["image_1", "image_2", "detail_image_1"]) = 2 ∧
      combine_images ["image_1", "image_2", "detail_image_1"]
          [Cell.str "   ", Cell.null, Cell.str ""]
          ["image_1", "image_2", "detail_image_1"] = none ∧
      imageCountOf (combine_images ["image_1", "image_2", "detail_image_1"]
          [Cell.str "   ", Cell.null, Cell.str ""]
          ["image_1", "image_2", "detail_image_1"]) = 0 := by
  refine ⟨combine_images_eq_dedup, ?_, rfl, fun l => rfl,
    by decide, by decide, by decide, by decide⟩
  intro cols row icols h
  rw [combine_images_eq_dedup] at h
  by_cases hd : dedupKeepFirst (candidateUrls cols row icols) = []
  · rw [if_pos hd] at h
    exact Option.noConfusion h
  · rw [if_neg hd] at h
    exact hd (Option.some.inj h)

/-- Witness for C5 applying the no-empty-array conjunct concretely. -/
theorem C5_witness : combine_images [] [] [] ≠ some [] :=
  C5_thm.2.1 [] [] []

/-! Column lemmas for the combined output. -/

theorem getCellD_map_self (g : String → Cell) :
    ∀ (cs : List String) (k : String), k ∈ cs →
      getCellD cs (cs.map g) k = g k := by
  intro cs
  induction cs with
  | nil => intro k hk; exact absurd hk (List.not_mem_nil k)
  | cons c cs ih =>
    intro k hk
    rw [List.map_cons]
    by_cases h : c = k
    · subst h
      simp [getCellD]
    · simp only [getCellD, if_neg h]
      rcases List.mem_cons.mp hk with h' | h'
      · exact absurd h'.symm h
      · exact ih k h'

theorem mem_unionCols_aux {x : String} :
    ∀ (dfs : List Frame) (acc : List String),
      x ∈ dfs.foldl (fun acc df => acc ++ df.cols.filter (fun c => !acc.contains c)) acc →
      x ∈ acc ∨ ∃ df ∈ dfs, x ∈ df.cols := by
  intro dfs
  induction dfs with
  | nil => intro acc h; exact Or.inl h
  | cons df dfs ih =>
    intro acc h
    rw [List.foldl_cons] at h
    rcases ih _ h with h' | ⟨d, hd, hx⟩
    · rcases List.mem_append.mp h' with h2 | h2
      · exact Or.inl h2
      · exact Or.inr ⟨df, List.mem_cons_self df dfs, (List.mem_filter.mp h2).1⟩
    · exact Or.inr ⟨d, List.mem_cons_of_mem df hd, hx⟩

theorem mem_unionCols {x : String} (dfs : List Frame) (h : x ∈ unionCols dfs) :
    ∃ df ∈ dfs, x ∈ df.cols := by
  rcases mem_unionCols_aux dfs [] h with h' | h'
  · exact absurd h' (List.not_mem_nil x)
  · exact h'

theorem concatFrames_cols (dfs : List Frame) :
    (concatFrames dfs).cols = unionCols dfs := rfl

theorem process_csv_cols (df : Frame) (icols : List String) :
    (process_csv df icols).cols =
      COLUMNS_TO_KEEP.filter (fun c => df.cols.contains c) ++ derivedCols := rfl

theorem pruneEmptyCols_cols (f : Frame) :
    (pruneEmptyCols f).cols =
      f.cols.filter (fun c => f.rows.any (fun r => notna (getCellD f.cols r c))) := rfl

theorem pruneEmptyCols_rows (f : Frame) :
    (pruneEmptyCols f).rows =
      f.rows.map (fun r =>
        (f.cols.filter (fun c => f.rows.any (fun r => notna (getCellD f.cols r c)))).map
          (fun c => getCellD f.cols r c)) := rfl

theorem transformAll_mem (fetch : String → Option Frame) (icols : List String) :
    ∀ (names : List String) (acc : List Frame × List String) (df : Frame),
      df ∈ (names.foldl (transformStep fetch icols) acc).1 →
      df ∈ acc.1 ∨ ∃ d, df = process_csv d icols := by
  intro names
  induction names with
  | nil => intro acc df h; exact Or.inl h
  | cons n ns ih =>
    intro acc df h
    rw [List.foldl_cons] at h
    rcases ih _ df h with h' | h'
    · unfold transformStep at h'
      cases hf : fetch n with
      | none => rw [hf] at h'; exact Or.inl h'
      | some d =>
        rw [hf] at h'
        rcases List.mem_append.mp h' with h2 | h2
        · exact Or.inl h2
        · exact Or.inr ⟨d, List.mem_singleton.mp h2⟩
    · exact Or.inr h'

theorem runFromListing_output (names : List String) (fetch : String → Option Frame)
    (f : Frame) (w : List String)
    (h : runFromListing names fetch = ⟨RunResult.output f, w⟩) :
    ∃ icols dfs, (∀ df ∈ dfs, ∃ d, df = process_csv d icols) ∧
      f = pruneEmptyCols (dedupStep (concatFrames dfs)) := by
  cases names with
  | nil =>
    unfold runFromListing at h
    simp at h
  | cons first rest =>
    cases hf : fetch first with
    | none =>
      simp only [runFromListing, hf] at h
      simp at h
    | some fd =>
      simp only [runFromListing, hf] at h
      by_cases he : (transformAll fetch
          (IMAGE_COLUMNS.filter (fun c => fd.cols.contains c)) (first :: rest)).1.isEmpty = true
      · rw [if_pos he] at h
        simp at h
      · rw [if_neg he] at h
        refine ⟨IMAGE_COLUMNS.filter (fun c => fd.cols.contains c),
          (transformAll fetch (IMAGE_COLUMNS.filter (fun c => fd.cols.contains c))
            (first :: rest)).1, ?_, ?_⟩
        · intro df hdf
          rcases transformAll_mem fetch _ (first :: rest) ([], []) df hdf with h' | h'
          · exact absurd h' (List.not_mem_nil df)
          · exact h'
        · have h2 := congrArg RunOutcome.result h
          simp only [RunOutcome.mk.injEq] at h
          exact (RunResult.output.inj h.1).symm

/-- Claim C6: whenever run_post_processor emits a combined table, every
column of it is an allow-listed field or one of the five derived fields,
and every emitted column holds a non-null value in at least one row. -/
theorem C6_thm (dir : Option (List (String × Option Frame))) (f : Frame) (w : List String)
    (h : run_post_processor dir = ⟨RunResult.output f, w⟩) :
    (∀ col ∈ f.cols, col ∈ COLUMNS_TO_KEEP ∨ col ∈ derivedCols) ∧
      (∀ col ∈ f.cols, ∃ r ∈ f.rows, notna (getCellD f.cols r col) = true) := by
  cases dir with
  | none =>
    unfold run_post_processor at h
    simp at h
  | some entries =>
    unfold run_post_processor at h
    rcases runFromListing_output _ _ _ _ h with ⟨icols, dfs, hdfs, hf⟩
    subst hf
    constructor
    · intro col hcol
      have hcol2 : col ∈ (dedupStep (concatFrames dfs)).cols := by
        rw [pruneEmptyCols_cols] at hcol
        exact (List.mem_filter.mp hcol).1
      rw [dedupStep_cols, concatFrames_cols] at hcol2
      rcases mem_unionCols dfs hcol2 with ⟨df, hdf, hx⟩
      rcases hdfs df hdf with ⟨d, hd⟩
      subst hd
      rw [process_csv_cols] at hx
      rcases List.mem_append.mp hx with h1 | h1
      · exact Or.inl (List.mem_filter.mp h1).1
      · exact Or.inr h1
    · intro col hcol
      rw [pruneEmptyCols_cols] at hcol
      have hany := (List.mem_filter.mp hcol).2
      rcases List.any_eq_true.mp hany with ⟨r, hr, hnotna⟩
      refine ⟨((dedupStep (concatFrames dfs)).cols.filter
          (fun c => (dedupStep (concatFrames dfs)).rows.any
            (fun r => notna (getCellD (dedupStep (concatFrames dfs)).cols r c)))).map
          (fun c => getCellD (dedupStep (concatFrames dfs)).cols r c), ?_, ?_⟩
      · rw [pruneEmptyCols_rows]
        exact List.mem_map.mpr ⟨r, hr, rfl⟩
      · rw [pruneEmptyCols_cols,
          getCellD_map_self (fun c => getCellD (dedupStep (concatFrames dfs)).cols r c) _ col hcol]
        exact hnotna

/-- Witness for C6 on a one-file directory: the emitted columns are the
allow-listed name plus the derived image_count, each with a non-null cell. -/
theorem C6_witness :
    (∀ col ∈ (Frame.mk ["name", "image_count"] [[Cell.str "x", Cell.nat 0]]).cols,
        col ∈ COLUMNS_TO_KEEP ∨ col ∈ derivedCols) ∧
      (∀ col ∈ (Frame.mk ["name", "image_count"] [[Cell.str "x", Cell.nat 0]]).cols,
        ∃ r ∈ (Frame.mk ["name", "image_count"] [[Cell.str "x", Cell.nat 0]]).rows,
          notna (getCellD (Frame.mk ["name", "image_count"]
            [[Cell.str "x", Cell.nat 0]]).cols r col) = true) :=
  C6_thm (some [("a.csv", some (Frame.mk ["name"] [[Cell.str "x"]]))])
    (Frame.mk ["name", "image_count"] [[Cell.str "x", Cell.nat 0]]) [] (by decide)

/-! The code-point order used for filename sorting: totality, transitivity,
antisymmetry. -/

theorem charListLe_rec (x y : Char) (xs ys : List Char) :
    charListLe (x :: xs) (y :: ys) =
      (if x.toNat < y.toNat then true
       else if y.toNat < x.toNat then false
       else charListLe xs ys) := rfl

theorem charListLe_total : ∀ a b : List Char,
    charListLe a b = true ∨ charListLe b a = true := by
  intro a
  induction a with
  | nil => intro b; exact Or.inl rfl
  | cons x xs ih =>
    intro b
    cases b with
    | nil => exact Or.inr rfl
    | cons y ys =>
      by_cases h1 : x.toNat < y.toNat
      · left
        rw [charListLe_rec, if_pos h1]
      · by_cases h2 : y.toNat < x.toNat
        · right
          rw [charListLe_rec, if_pos h2]
        · rcases ih ys with h | h
          · left
            rw [charListLe_rec, if_neg h1, if_neg h2]
            exact h
          · right
            rw [charListLe_rec, if_neg h2, if_neg h1]
            exact h

theorem charListLe_trans : ∀ a b c : List Char,
    charListLe a b = true → charListLe b c = true → charListLe a c = true := by
  intro a
  induction a with
  | nil => intro b c _ _; rfl
  | cons x xs ih =>
    intro b c hab hbc
    cases b with
    | nil => exact absurd hab (by simp [charListLe])
    | cons y ys =>
      cases c with
      | nil => exact absurd hbc (by simp [charListLe])
      | cons z zs =>
        rw [charListLe_rec] at hab hbc ⊢
        by_cases hxy : x.toNat < y.toNat
        · by_cases hyz : y.toNat < z.toNat
          · rw [if_pos (Nat.lt_trans hxy hyz)]
          · by_cases hzy : z.toNat < y.toNat
            · rw [if_neg hyz, if_pos hzy] at hbc
              exact absurd hbc (by simp)
            · have hyzeq : y.toNat = z.toNat := by omega
              rw [if_pos (hyzeq ▸ hxy)]
        · by_cases hyx : y.toNat < x.toNat
          · rw [if_neg hxy, if_pos hyx] at hab
            exact absurd hab (by simp)
          · have hxyeq : x.toNat = y.toNat := by omega
            rw [if_neg hxy, if_neg hyx] at hab
            by_cases hyz : y.toNat < z.toNat
            · rw [if_pos (hxyeq ▸ hyz)]
            · by_cases hzy : z.toNat < y.toNat
              · rw [if_neg hyz, if_pos hzy] at hbc
                exact absurd hbc (by simp)
              · rw [if_neg hyz, if_neg hzy] at hbc
                have hxz : ¬x.toNat < z.toNat := by omega
                have hzx : ¬z.toNat < x.toNat := by omega
                rw [if_neg hxz, if_neg hzx]
                exact ih ys zs hab hbc

theorem charListLe_antisymm : ∀ a b : List Char,
    charListLe a b = true → charListLe b a = true → a = b := by
  intro a
  induction a with
  | nil =>
    intro b _ hba
    cases b with
    | nil => rfl
    | cons y ys => exact absurd hba (by simp [charListLe])
  | cons x xs ih =>
    intro b hab hba
    cases b with
    | nil => exact absurd hab (by simp [charListLe])
    | cons y ys =>
      rw [charListLe_rec] at hab hba
      by_cases hxy : x.toNat < y.toNat
      · rw [if_neg (by omega), if_pos hxy] at hba
        exact absurd hba (by simp)
      · by_cases hyx : y.toNat < x.toNat
        · rw [if_pos hyx] at hba
          rw [if_neg hxy, if_pos hyx] at hab
          exact absurd hab (by simp)
        · rw [if_neg hxy, if_neg hyx] at hab
          rw [if_neg hyx, if_neg hxy] at hba
          have hn : x.toNat = y.toNat := by omega
          have hchar : x = y := Char.ext (UInt32.ext hn)
          rw [hchar, ih ys hab hba]

instance : IsTotal String (fun a b => strLe a b = true) :=
  ⟨fun a b => charListLe_total a.toList b.toList⟩

instance : IsTrans String (fun a b => strLe a b = true) :=
  ⟨fun a b c hab hbc => charListLe_trans a.toList b.toList c.toList hab hbc⟩

instance : IsAntisymm String (fun a b => strLe a b = true) :=
  ⟨fun a b h1 h2 => by
    have h3 := charListLe_antisymm a.toList b.toList h1 h2
    have h4 := congrArg String.mk h3
    simpa [mk_toList] using h4⟩

/-- Claim C7: discovery selects exactly the entries ending in .csv that
are not the reserved audit filename and do not start with the reserved
progress prefix, sorted lexicographically; a missing directory or an empty
selection yields the no-input outcome, with nothing written and no
exception raised. -/
theorem C7_thm :
    (∀ (entries : List String) (f : String),
      f ∈ selectCsvFiles entries ↔
        f ∈ entries ∧ pyEndsWith f ".csv" = true ∧ f ≠ "audit_table.csv" ∧
          pyStartsWith f "progress" = false) ∧
      (∀ entries : List String,
        List.Sorted (fun a b => strLe a b = true) (selectCsvFiles entries)) ∧
      run_post_processor none = ⟨RunResult.noInput, []⟩ ∧
      (∀ entries : List (String × Option Frame),
        selectCsvFiles (entries.map Prod.fst) = [] →
          run_post_processor (some entries) = ⟨RunResult.noInput, []⟩) := by
  refine ⟨?_, ?_, rfl, ?_⟩
  · intro entries f
    unfold selectCsvFiles
    rw [List.mem_insertionSort, List.mem_filter]
    constructor
    · rintro ⟨h1, h2⟩
      simp only [Bool.and_eq_true] at h2
      refine ⟨h1, h2.1.1, ?_, ?_⟩
      · simpa using h2.1.2
      · simpa using h2.2
    · rintro ⟨h1, h2, h3, h4⟩
      refine ⟨h1, ?_⟩
      simp [Bool.and_eq_true, h2, h3, h4]
  · intro entries
    exact List.sorted_insertionSort _ _
  · intro entries hsel
    simp only [run_post_processor]
    rw [hsel]
    rfl

/-- Witness for C7: a directory holding only a non-csv file selects
nothing, so the run is a no-input no-op. -/
theorem C7_witness :
    run_post_processor (some [("notes.txt", none)]) = ⟨RunResult.noInput, []⟩ :=
  C7_thm.2.2.2 [("notes.txt", none)] (by decide)

theorem process_csv_rows_length (df : Frame) (ic : List String) :
    (process_csv df ic).rows.length = df.rows.length := by
  simp [process_csv]

/-- Claim C8: when discovery selects three files and the middle one is
unreadable at transform time, the run still emits output, the combined
table (fed to dedup and pruning) is built from exactly the transformed
rows of files one and three in order, its row count is the sum of the two
surviving files row counts, and the warning list names exactly the failed
second file. -/
theorem C8_thm (entries : List (String × Option Frame)) (n1 n2 n3 : String)
    (F1 F3 : Frame)
    (hsel : selectCsvFiles (entries.map Prod.fst) = [n1, n2, n3])
    (h1 : fetchFile entries n1 = some F1)
    (h2 : fetchFile entries n2 = none)
    (h3 : fetchFile entries n3 = some F3) :
    run_post_processor (some entries) =
      ⟨RunResult.output (pruneEmptyCols (dedupStep (concatFrames
          [process_csv F1 (IMAGE_COLUMNS.filter (fun c => F1.cols.contains c)),
           process_csv F3 (IMAGE_COLUMNS.filter (fun c => F1.cols.contains c))]))),
        [n2]⟩ ∧
      (concatFrames
          [process_csv F1 (IMAGE_COLUMNS.filter (fun c => F1.cols.contains c)),
           process_csv F3 (IMAGE_COLUMNS.filter (fun c => F1.cols.contains c))]).rows.length =
        F1.rows.length + F3.rows.length := by
  constructor
  · simp only [run_post_processor]
    rw [hsel]
    simp only [runFromListing, h1, transformAll, List.foldl_cons, List.foldl_nil,
      transformStep, h2, h3]
    simp
  · have hrows : (concatFrames
        [process_csv F1 (IMAGE_COLUMNS.filter (fun c => F1.cols.contains c)),
         process_csv F3 (IMAGE_COLUMNS.filter (fun c => F1.cols.contains c))]).rows =
        ((process_csv F1 (IMAGE_COLUMNS.filter (fun c => F1.cols.contains c))).rows.map
          (fun r => alignRow (process_csv F1 (IMAGE_COLUMNS.filter
            (fun c => F1.cols.contains c))).cols r
            (unionCols [process_csv F1 (IMAGE_COLUMNS.filter (fun c => F1.cols.contains c)),
              process_csv F3 (IMAGE_COLUMNS.filter (fun c => F1.cols.contains c))]))) ++
        ((process_csv F3 (IMAGE_COLUMNS.filter (fun c => F1.cols.contains c))).rows.map
          (fun r => alignRow (process_csv F3 (IMAGE_COLUMNS.filter
            (fun c => F1.cols.contains c))).cols r
            (unionCols [process_csv F1 (IMAGE_COLUMNS.filter (fun c => F1.cols.contains c)),
              process_csv F3 (IMAGE_COLUMNS.filter (fun c => F1.cols.contains c))]))) := by
      simp [concatFrames]
    rw [hrows]
    rw [List.length_append, List.length_map, List.length_map,
      process_csv_rows_length, process_csv_rows_length]

/-- Witness for C8 on a concrete three-file directory with an unreadable
middle file. -/
theorem C8_witness :
    run_post_processor (some [("a.csv", some (Frame.mk ["name"] [[Cell.str "x"]])),
        ("b.csv", none), ("c.csv", some (Frame.mk ["name"] [[Cell.str "y"]]))]) =
      ⟨RunResult.output (pruneEmptyCols (dedupStep (concatFrames
          [process_csv (Frame.mk ["name"] [[Cell.str "x"]])
             (IMAGE_COLUMNS.filter (fun c => (Frame.mk ["name"]
               [[Cell.str "x"]]).cols.contains c)),
           process_csv (Frame.mk ["name"] [[Cell.str "y"]])
             (IMAGE_COLUMNS.filter (fun c => (Frame.mk ["name"]
               [[Cell.str "x"]]).cols.contains c))]))),
        ["b.csv"]⟩ ∧
      (concatFrames
          [process_csv (Frame.mk ["name"] [[Cell.str "x"]])
             (IMAGE_COLUMNS.filter (fun c => (Frame.mk ["name"]
               [[Cell.str "x"]]).cols.contains c)),
           process_csv (Frame.mk ["name"] [[Cell.str "y"]])
             (IMAGE_COLUMNS.filter (fun c => (Frame.mk ["name"]
               [[Cell.str "x"]]).cols.contains c))]).rows.length =
        (Frame.mk ["name"] [[Cell.str "x"]]).rows.length +
          (Frame.mk ["name"] [[Cell.str "y"]]).rows.length :=
  C8_thm [("a.csv", some (Frame.mk ["name"] [[Cell.str "x"]])),
      ("b.csv", none), ("c.csv", some (Frame.mk ["name"] [[Cell.str "y"]]))]
    "a.csv" "b.csv" "c.csv"
    (Frame.mk ["name"] [[Cell.str "x"]]) (Frame.mk ["name"] [[Cell.str "y"]])
    (by decide) (by decide) (by decide) (by decide)

theorem find?_congr_perm {α : Type} (p : α → Bool) (l₁ l₂ : List α)
    (hp : l₁.Perm l₂)
    (huniq : ∀ x ∈ l₁, ∀ y ∈ l₁, p x = true → p y = true → x = y) :
    List.find? p l₁ = List.find? p l₂ := by
  cases h₁ : List.find? p l₁ with
  | none =>
    have hnone := List.find?_eq_none.mp h₁
    symm
    apply List.find?_eq_none.mpr
    intro x hx
    exact hnone x (hp.mem_iff.mpr hx)
  | some x =>
    have hx1 : x ∈ l₁ := List.mem_of_find?_eq_some h₁
    have hpx := List.find?_some h₁
    cases h₂ : List.find? p l₂ with
    | none =>
      have hnone := List.find?_eq_none.mp h₂
      exact absurd hpx (hnone x (hp.mem_iff.mp hx1))
    | some y =>
      have hy1 : y ∈ l₁ := hp.mem_iff.mpr (List.mem_of_find?_eq_some h₂)
      have hpy := List.find?_some h₂
      rw [huniq x hx1 y hy1 hpx hpy]

theorem fetchFile_perm (e₁ e₂ : List (String × Option Frame))
    (hperm : e₁.Perm e₂) (hnd : (e₁.map Prod.fst).Nodup) (n : String) :
    fetchFile e₁ n = fetchFile e₂ n := by
  unfold fetchFile
  have huniq : ∀ x ∈ e₁, ∀ y ∈ e₁,
      (x.1 == n) = true → (y.1 == n) = true → x = y := by
    intro x hx y hy hxn hyn
    have hx1 : x.1 = n := beq_iff_eq.mp hxn
    have hy1 : y.1 = n := beq_iff_eq.mp hyn
    exact List.inj_on_of_nodup_map hnd hx hy (hx1.trans hy1.symm)
  rw [find?_congr_perm _ e₁ e₂ hperm huniq]

theorem selectCsvFiles_perm (l₁ l₂ : List String) (hperm : l₁.Perm l₂) :
    selectCsvFiles l₁ = selectCsvFiles l₂ := by
  unfold selectCsvFiles
  exact @List.eq_of_perm_of_sorted String (fun a b => strLe a b = true) _ _ _
    ((List.perm_insertionSort _ _).trans
      ((hperm.filter _).trans (List.perm_insertionSort _ _).symm))
    (List.sorted_insertionSort _ _)
    (List.sorted_insertionSort _ _)

/-- Claim C9: the pipeline outcome is a pure function of the directory as
a set of named files: it is invariant under the enumeration order of the
directory listing (the only nondeterministic input, since os.listdir order
is unspecified and the code sorts after filtering), so two runs over an
unchanged directory produce the identical combined table, column set, row
order, values and warnings. -/
theorem C9_thm (e₁ e₂ : List (String × Option Frame))
    (hperm : e₁.Perm e₂) (hnd : (e₁.map Prod.fst).Nodup) :
    run_post_processor (some e₁) = run_post_processor (some e₂) := by
  simp only [run_post_processor]
  have hsel : selectCsvFiles (e₁.map Prod.fst) = selectCsvFiles (e₂.map Prod.fst) :=
    selectCsvFiles_perm _ _ (hperm.map Prod.fst)
  have hfetch : fetchFile e₁ = fetchFile e₂ :=
    funext (fun n => fetchFile_perm e₁ e₂ hperm hnd n)
  rw [hsel, hfetch]

/-- Witness for C9: two enumeration orders of the same two-file directory
give the same outcome. -/
theorem C9_witness :
    run_post_processor
        (some [("a.csv", some (Frame.mk ["name"] [[Cell.str "x"]])), ("b.csv", none)]) =
      run_post_processor
        (some [("b.csv", none), ("a.csv", some (Frame.mk ["name"] [[Cell.str "x"]]))]) :=
  C9_thm _ _ (by decide) (by decide)

/-- Claim C10: the image-field detection read of the first selected file
sits outside the per-file skip-and-continue policy: when the first file is
unreadable the run surfaces the exception (and prints no per-file warning),
even if every other selected file is well-formed. -/
theorem C10_thm (entries : List (String × Option Frame)) (first : String)
    (rest : List String)
    (hsel : selectCsvFiles (entries.map Prod.fst) = first :: rest)
    (hfail : fetchFile entries first = none) :
    run_post_processor (some entries) = ⟨RunResult.raised, []⟩ := by
  simp only [run_post_processor]
  rw [hsel]
  simp only [runFromListing, hfail]

/-- Witness for C10: first file unreadable, second well-formed; the run
raises. -/
theorem C10_witness :
    run_post_processor (some [("a.csv", none),
        ("b.csv", some (Frame.mk ["name"] [[Cell.str "x"]]))]) =
      ⟨RunResult.raised, []⟩ :=
  C10_thm _ "a.csv" ["b.csv"] (by decide) (by decide)
